import Mathlib

/-!
# Verification of the Scribe changelog service

A shallow embedding of the core of the Scribe repository: the publish
route (`src/app/api/developer/publish-changelog/route.ts`), the generate
route (same file, second document), the Mongoose `Project` and `Changelog`
schemas (`src/models/Project.ts`, the `Changelog` model), the commit source
adapter (`services/gitService.ts`), the LLM draft generator
(`services/llmService.ts`) and the access-control middleware
(`src/lib/auth-middleware.ts`, `services/githubService.ts`).

Conventions of the embedding:
* MongoDB collections are Lean lists; `findOne` is `List.find?` (first
  match) and `findOneAndUpdate` updates the first matching document
  (`updateFirst`).
* Timestamps are natural numbers; each request handler receives the single
  instant `now` at which it runs.
* JavaScript strings are Lean `String`s; the regular expressions of the
  source are implemented as executable character-list parsers.
* Fallible calls return `Except String`, the error string being the
  `Error.message` thrown by the source; the HTTP boundary classifies these
  messages with the same substring tests as the route's `catch` blocks.
* External collaborators (GitHub commit API, Gemini LLM, the session of
  the incoming request) are inputs: the commit API is its full
  most-recent-first commit list paginated by the documented
  `page`/`per_page` contract, and the LLM is an `LlmBehavior` value giving
  either a response with a latency or a thrown failure.
* The GitLab and SSH branches of `gitService.parseRepoUrl` are outside the
  canonical GitHub flow (spec §1 treats them as non-canonical); URLs that
  do not match the GitHub pattern are modelled as unsupported.
-/

/-- Occurrence of `n` as a contiguous run inside `h`. -/
def containsSubChars (n : List Char) : List Char → Bool
  | [] => n.isEmpty
  | c :: t => n.isPrefixOf (c :: t) || containsSubChars n t

/-- JavaScript `String.prototype.includes`: `containsSub h n` is true when
`n` occurs as a contiguous substring of `h`. -/
def containsSub (h n : String) : Bool :=
  containsSubChars n.toList h.toList

/-- JavaScript `String.prototype.toLowerCase` (ASCII fragment). -/
def lowerStr (s : String) : String :=
  String.mk (s.toList.map Char.toLower)

/-- Trim of a character list: drop whitespace on both ends (JS `trim`). -/
def trimChars (l : List Char) : List Char :=
  ((l.dropWhile Char.isWhitespace).reverse.dropWhile Char.isWhitespace).reverse

/-- JavaScript `String.prototype.trim`. -/
def strTrim (s : String) : String :=
  String.mk (trimChars s.toList)

/-- Update the first element satisfying `p` (Mongo `findOneAndUpdate` /
`document.save()` on a fetched document). -/
def updateFirst (p : α → Bool) (f : α → α) : List α → List α
  | [] => []
  | x :: xs => if p x then f x :: xs else x :: updateFirst p f xs

/-- Hex digit test used by the UUID format check. -/
def isHexChar (c : Char) : Bool :=
  c.isDigit || ('a' ≤ c && c ≤ 'f') || ('A' ≤ c && c ≤ 'F')

/-- zod `z.string().uuid()`: five hyphen-separated hex groups of lengths
8, 4, 4, 4 and 12. -/
def isUuidFormat (s : String) : Bool :=
  match s.toList.splitOn '-' with
  | [a, b, c, d, e] =>
    a.length = 8 && b.length = 4 && c.length = 4 && d.length = 4 &&
      e.length = 12 && (a ++ b ++ c ++ d ++ e).all isHexChar
  | _ => false

/-! ## Data model (`src/models/Project.ts`, the `Changelog` schema) -/

/-- The `status` enum of the `Changelog` schema (`'draft' | 'published'`). -/
inductive Status where
  | draft
  | published
deriving DecidableEq, Repr

/-- A document of the `changelogs` collection. Optional schema fields are
`Option`s; `created_by` is sparse for backward compatibility. -/
structure ChangelogDoc where
  id : String
  project_id : String
  created_by : Option String
  version : String
  summary_ai : String
  summary_final : Option String
  commit_hashes : List String
  generated_at : Nat
  published_at : Option Nat
  status : Status
deriving DecidableEq, Repr

/-- A document of the `projects` collection. `owner_id` is sparse;
`github_repo_owner`/`github_repo_name` use `""` for the legacy records
that predate these required fields (JS falsiness). -/
structure ProjectDoc where
  id : String
  name : String
  repo_url : String
  description : Option String
  owner_id : Option String
  github_repo_owner : String
  github_repo_name : String
  created_at : Nat
  updated_at : Nat
deriving DecidableEq, Repr

/-- The persistent store: the two collections the core operates on. -/
structure DB where
  projects : List ProjectDoc
  changelogs : List ChangelogDoc
deriving DecidableEq, Repr

/-- The authenticated identity extracted from a session by
`getAuthContext` (`auth-middleware.ts`), restricted to the fields the
modelled routes consume. -/
structure AuthUser where
  id : String
  username : String
  accessToken : String
deriving DecidableEq, Repr

/-! ## Publish route (`publish-changelog/route.ts`, `POST`) -/

/-- Body of a publish request after JSON parsing. -/
structure PublishRequest where
  changelog_id : String
  summary_final : String
deriving DecidableEq, Repr

/-- `publishChangelogSchema`: `changelog_id` is a UUID and
`summary_final` is a nonempty string of at most 10000 characters. -/
def validPublishRequest (r : PublishRequest) : Bool :=
  isUuidFormat r.changelog_id && 1 ≤ r.summary_final.length &&
    r.summary_final.length ≤ 10000

/-- Result of the publish route, one constructor per HTTP response:
400 validation, 404 not found, 409 already published, 200 with the
fields echoed from the updated document. -/
inductive PublishOutcome where
  | validationFailed
  | notFound
  | alreadyPublished
  | ok (changelogId version : String) (publishedAt : Nat) (projectId : String)
deriving DecidableEq, Repr

/-- The update applied by the route's `findOneAndUpdate` on the changelog.
The route also passes `updated_at`, a path absent from the `Changelog`
schema and therefore dropped by Mongoose strict mode. -/
def applyPublishUpdate (now : Nat) (summaryFinal : String) (d : ChangelogDoc) : ChangelogDoc :=
  { d with summary_final := some summaryFinal
           published_at := some now
           status := .published }

/-- `POST /api/developer/publish-changelog`. The handler reads the body
and the database only: the session of the request (`_session`) is never
consulted — there is no authentication or ownership check in this route.
On success it also refreshes `updated_at` of the owning project (the
`Project` pre-`findOneAndUpdate` middleware sets the same field). -/
def publishChangelogRoute (db : DB) (now : Nat) (_session : Option AuthUser)
    (req : PublishRequest) : PublishOutcome × DB :=
  if ¬ validPublishRequest req then (.validationFailed, db)
  else
    match db.changelogs.find? (fun d => d.id = req.changelog_id) with
    | none => (.notFound, db)
    | some c =>
      if c.status = .published then (.alreadyPublished, db)
      else
        let c1 := applyPublishUpdate now req.summary_final c
        let changelogs1 :=
          updateFirst (fun d => d.id = req.changelog_id)
            (applyPublishUpdate now req.summary_final) db.changelogs
        let projects1 :=
          updateFirst (fun p => p.id = c1.project_id)
            (fun p => { p with updated_at := now }) db.projects
        (.ok c1.id c1.version now c1.project_id,
          { projects := projects1, changelogs := changelogs1 })

/-! ## Changelog schema instance methods -/

/-- `ChangelogSchema.methods.publish(summary_final?)`: sets the status and
the publish timestamp unconditionally, but copies `summary_final` only
when the argument is truthy (present and nonempty). -/
def changelogMethodPublish (now : Nat) (summaryFinal : Option String)
    (c : ChangelogDoc) : ChangelogDoc :=
  let c1 := { c with status := Status.published, published_at := some now }
  match summaryFinal with
  | some s => if s.length > 0 then { c1 with summary_final := some s } else c1
  | none => c1

/-- `ChangelogSchema.methods.unpublish()`: reverts the status and clears
the publish timestamp, leaving `summary_final` untouched. -/
def changelogMethodUnpublish (c : ChangelogDoc) : ChangelogDoc :=
  { c with status := Status.draft, published_at := none }

/-! ## Repository URL handling -/

/-- Character class `[a-zA-Z0-9_.-]` of the GitHub URL regex shared by the
route validation and the `Project` schema. -/
def isRepoChar (c : Char) : Bool :=
  c.isAlphanum || c = '_' || c = '.' || c = '-'

/-- Consume an exact prefix, returning the remainder on success. -/
def chompPrefix : List Char → List Char → Option (List Char)
  | [], rest => some rest
  | _ :: _, [] => none
  | p :: ps, c :: cs => if c = p then chompPrefix ps cs else none

/-- The literal head of the GitHub URL pattern. -/
def githubPrefix : List Char := "https://github.com/".toList

/-- The anchored regex
`^https:\/\/github\.com\/([a-zA-Z0-9_.-]+)\/([a-zA-Z0-9_.-]+)\/?$` used by
the generate route (zod refine and owner/repo extraction) and the
`Project` schema validator, returning the two capture groups. -/
def matchGitHubUrlChars (l : List Char) : Option (String × String) :=
  match chompPrefix githubPrefix l with
  | none => none
  | some rest =>
    let owner := rest.takeWhile isRepoChar
    match rest.dropWhile isRepoChar with
    | '/' :: rest3 =>
      let repo := rest3.takeWhile isRepoChar
      let rest4 := rest3.dropWhile isRepoChar
      if owner ≠ [] ∧ repo ≠ [] ∧ (rest4 = [] ∨ rest4 = ['/']) then
        some (String.mk owner, String.mk repo)
      else none
    | _ => none

/-- String version of `matchGitHubUrlChars`. -/
def matchGitHubUrl (s : String) : Option (String × String) :=
  matchGitHubUrlChars s.toList

/-- The zod `refine` of `repo_url` in `GenerateChangelogRequest` (the
`z.string().url()` step is subsumed: every string matching the pattern is
a URL). -/
def githubUrlTest (s : String) : Bool :=
  (matchGitHubUrl s).isSome

/-- `repo_url.replace(/\/$/, '')` on the character level: remove one
trailing slash when present. -/
def normChars (l : List Char) : List Char :=
  if l.getLast? = some '/' then l.dropLast else l

/-- URL normalization of the generate route. -/
def normalizeRepoUrl (s : String) : String :=
  String.mk (normChars s.toList)

/-! ## Commit source adapter (`services/gitService.ts`) -/

/-- The normalized commit format returned by the adapter. -/
structure CommitData where
  sha : String
  message : String
  authorName : String
  authorEmail : String
  date : String
deriving DecidableEq, Repr

/-- `url.replace(/\.git$/, '')`: strip a trailing `.git`. -/
def stripDotGit (l : List Char) : List Char :=
  if l.reverse.take 4 = "tig.".toList then (l.reverse.drop 4).reverse else l

/-- One attempt of the unanchored regex
`https:\/\/github\.com\/([^\/]+)\/([^\/]+)` at the head of the input:
the capture groups are maximal nonempty runs of non-slash characters. -/
def githubLooseMatchHere (l : List Char) : Option (String × String) :=
  match chompPrefix githubPrefix l with
  | none => none
  | some rest =>
    let owner := rest.takeWhile (fun c => c ≠ '/')
    match rest.dropWhile (fun c => c ≠ '/') with
    | '/' :: rest3 =>
      let repo := rest3.takeWhile (fun c => c ≠ '/')
      if owner ≠ [] ∧ repo ≠ [] then some (String.mk owner, String.mk repo)
      else none
    | _ => none

/-- Unanchored search of the loose GitHub pattern (`String.match` tries
every start position from the left). -/
def findGitHubMatch : List Char → Option (String × String)
  | [] => none
  | c :: t =>
    match githubLooseMatchHere (c :: t) with
    | some p => some p
    | none => findGitHubMatch t

/-- `gitService.parseRepoUrl`, restricted to its GitHub HTTPS branch.
The GitLab and SSH branches are outside the canonical GitHub flow
(spec §1); URLs that do not match are reported as unsupported, as the
function's final `throw` does. -/
def parseRepoUrl (repoUrl : String) : Option (String × String) :=
  findGitHubMatch (stripDotGit repoUrl.toList)

/-- Chunking worker, structurally recursive on a fuel bound on the number
of pages (each round consumes at least one commit when `perPage ≠ 0`). -/
def toPagesAux (perPage : Nat) : Nat → List CommitData → List (List CommitData)
  | 0, _ => []
  | fuel + 1, l =>
    if perPage = 0 ∨ l = [] then []
    else l.take perPage :: toPagesAux perPage fuel (l.drop perPage)

/-- The GitHub commits API pagination contract (§6): page `k` (1-based)
with page size `perPage` holds the slice of the full most-recent-first
commit list `all` starting at `(k-1)*perPage`. `toPages` lists the
nonempty pages in order; a request past the end returns the empty page. -/
def toPages (perPage : Nat) (l : List CommitData) : List (List CommitData) :=
  toPagesAux perPage l.length l

def fetchGitHubLoop (commitCount : Nat) : List (List CommitData) → List CommitData → List CommitData
  | [], acc => acc
  | p :: ps, acc =>
    if acc.length < commitCount then
      if p = [] then acc
      else fetchGitHubLoop commitCount ps (acc ++ p.take (commitCount - acc.length))
    else acc

/-- `_fetchGitHubRecentCommits(owner, repo, commitCount)` against a
repository whose full most-recent-first history is `all`. `pat` is the
presence of the `GITHUB_PAT` environment variable. The page size is
`Math.min(commitCount, 100)` and the result is truncated to
`commitCount` by the final `slice`. -/
def fetchGitHubRecentCommits (pat : Bool) (all : List CommitData)
    (commitCount : Nat) : Except String (List CommitData) :=
  if ¬ pat then
    .error "GITHUB_PAT environment variable is required for GitHub API access"
  else
    .ok ((fetchGitHubLoop commitCount (toPages (min commitCount 100) all) []).take commitCount)

/-- The count window check at the head of `fetchRecentCommitsByCount`:
`if (commitCount <= 0 || commitCount > 1000) throw`. -/
def commitCountInWindow (c : Int) : Bool :=
  ¬ (c ≤ 0 ∨ c > 1000)

/-- `gitService.fetchRecentCommitsByCount(repoUrl, commitCount)`: the
count window check, the URL parse, the GitHub fetch, and the uniform
re-throw that prefixes every failure with the repository URL. The count
is an `Int` because the TypeScript `number` argument is unconstrained
here (the [1,100] bound lives in the route's request schema). -/
def fetchRecentCommitsByCount (repoUrl : String) (commitCount : Int)
    (pat : Bool) (all : List CommitData) : Except String (List CommitData) :=
  let r : Except String (List CommitData) :=
    if ¬ commitCountInWindow commitCount then
      .error "Commit count must be between 1 and 1000"
    else
      match parseRepoUrl repoUrl with
      | none => .error ("Unsupported repository URL format: " ++ repoUrl)
      | some _ => fetchGitHubRecentCommits pat all commitCount.toNat
  match r with
  | .error m => .error ("Failed to fetch recent commits from " ++ repoUrl ++ ": " ++ m)
  | .ok v => .ok v

/-! ## Draft generator (`services/llmService.ts`) -/

/-- Behaviour of the Gemini call for one request: either the provider
settles the generation promise after `latencyMs` milliseconds with
`text`, or the call throws with the given message. -/
inductive LlmBehavior where
  | responds (latencyMs : Nat) (text : String)
  | fails (message : String)
deriving DecidableEq, Repr

/-- `GENERATION_TIMEOUT`: the hard 15-second deadline in milliseconds. -/
def GENERATION_TIMEOUT : Nat := 15000

/-- The body of `generateSummary` before its `catch`: the empty-input
short-circuit, the API-key check of `initializeGemini`, then
`Promise.race` of the generation promise against the timeout promise.
The timeout rejection wins whenever the provider has not settled strictly
before the deadline fires. -/
def generateSummaryRaw (commits : List CommitData) (llm : LlmBehavior)
    (apiKeyPresent : Bool) : Except String String :=
  if commits.isEmpty then .ok "No commits provided for changelog generation."
  else if ¬ apiKeyPresent then
    .error "GEMINI_API_KEY environment variable is required for AI changelog generation"
  else
    match llm with
    | .fails m => .error m
    | .responds latencyMs text =>
      if GENERATION_TIMEOUT ≤ latencyMs then
        .error ("Gemini AI request timed out after " ++ toString GENERATION_TIMEOUT ++ "ms")
      else if (strTrim text).length = 0 then
        .error "Gemini AI returned empty response"
      else .ok (strTrim text)

/-- The `catch` of `generateSummary`: reclassify the message by substring
tests, in source order. -/
def mapLlmError (m : String) : String :=
  if containsSub m "timeout" then
    "AI changelog generation timed out after 15 seconds"
  else if containsSub m "API_KEY" then
    "Invalid or missing Gemini API key. Please check your GEMINI_API_KEY environment variable."
  else if containsSub m "quota" || containsSub m "rate limit" then
    "Gemini AI quota exceeded or rate limited. Please try again later."
  else if containsSub m "safety" then
    "Content was blocked by Gemini AI safety filters. Please review your commit messages."
  else "AI changelog generation failed: " ++ m

/-- `llmService.generateSummary(commits)`. -/
def generateSummary (commits : List CommitData) (llm : LlmBehavior)
    (apiKeyPresent : Bool) : Except String String :=
  match generateSummaryRaw commits llm apiKeyPresent with
  | .ok t => .ok t
  | .error m => .error (mapLlmError m)

/-! ## Access control (`auth-middleware.ts`, `githubService.ts`) -/

/-- The record returned by `verifyUserRepositoryAccess`. -/
structure AccessCheck where
  canAccess : Bool
  isOwner : Bool
  hasWriteAccess : Bool
  error : Option String
deriving DecidableEq, Repr

/-- `checkRepositoryAccess`: delegate to `verifyUserRepositoryAccess`
(whose behaviour for this request is the `Except` input) and convert any
thrown error into a `canAccess = false` record carrying the message. -/
def checkRepositoryAccess (res : Except String AccessCheck) : AccessCheck :=
  match res with
  | .ok a => a
  | .error m =>
    { canAccess := false, isOwner := false, hasWriteAccess := false,
      error := some ("Repository access check failed: " ++ m) }

/-! ## Generate route (`generate-changelog`, `POST`) -/

/-- Body of a generate request after JSON parsing (a missing
`commit_count` has already received the zod default 10). -/
structure GenerateRequest where
  project_name : String
  repo_url : String
  commit_count : Int
deriving DecidableEq, Repr

/-- `GenerateChangelogRequest`: name of length 1..200, GitHub URL
pattern, integer commit count within [1, 100]. -/
def validGenerateRequest (r : GenerateRequest) : Bool :=
  1 ≤ r.project_name.length && r.project_name.length ≤ 200 &&
    githubUrlTest r.repo_url &&
    1 ≤ r.commit_count && r.commit_count ≤ 100

/-- Wall-clock components consumed by `generateVersion`. -/
structure DateParts where
  year : Nat
  month : Nat
  day : Nat
  hour : Nat
  minute : Nat
deriving DecidableEq, Repr

/-- `String(n).padStart(2, '0')` for the date components. -/
def pad2 (n : Nat) : String :=
  if n < 10 then "0" ++ toString n else toString n

/-- `generateVersion()`: the `YYYY.MM.DD-HHMM` version string. -/
def generateVersion (d : DateParts) : String :=
  toString d.year ++ "." ++ pad2 d.month ++ "." ++ pad2 d.day ++ "-" ++
    pad2 d.hour ++ pad2 d.minute

/-- The `Project` pre-save middleware: refresh `updated_at` and re-derive
the owner/name pair from `repo_url` whenever the URL matches. -/
def preSaveProject (now : Nat) (p : ProjectDoc) : ProjectDoc :=
  let p1 := { p with updated_at := now }
  match matchGitHubUrl p1.repo_url with
  | some (o, r) => { p1 with github_repo_owner := o, github_repo_name := r }
  | none => p1

/-- The existing-project branch: claim the record for the caller when it
has no owner yet (`if (!project.owner_id)`). -/
def claimOwner (userId : String) (p : ProjectDoc) : ProjectDoc :=
  if p.owner_id = none then { p with owner_id := some userId } else p

/-- The existing-project branch: backfill the GitHub owner/name fields of
legacy records (`if (!project.github_repo_owner || !project.github_repo_name)`,
empty string being the falsy missing value). -/
def backfillGitHub (nurl : String) (p : ProjectDoc) : ProjectDoc :=
  if p.github_repo_owner = "" ∨ p.github_repo_name = "" then
    match matchGitHubUrl nurl with
    | some (o, r) => { p with github_repo_owner := o, github_repo_name := r }
    | none => p
  else p

/-- Result of the project-resolution phase of the generate route. -/
inductive ResolveResult where
  | invalidUrl
  | ok (project : ProjectDoc) (projects : List ProjectDoc)
deriving DecidableEq, Repr

/-- The project lookup/creation of the generate route (its body between
`findByRepoUrl` and the second `project.save()`): find by the normalized
URL; update the found record (owner claim, GitHub backfill, save), or
parse the URL and insert a fresh record owned by the caller. -/
def resolveOrCreateProject (projects : List ProjectDoc) (userId name newId : String)
    (now : Nat) (nurl : String) : ResolveResult :=
  match projects.find? (fun p => p.repo_url = nurl) with
  | some p =>
    let upd := fun q => preSaveProject now (backfillGitHub nurl (claimOwner userId q))
    .ok (upd p) (updateFirst (fun q => q.repo_url = nurl) upd projects)
  | none =>
    match matchGitHubUrl nurl with
    | none => .invalidUrl
    | some (o, r) =>
      let p : ProjectDoc :=
        { id := newId, name := name, repo_url := nurl, description := none,
          owner_id := some userId, github_repo_owner := o, github_repo_name := r,
          created_at := now, updated_at := now }
      let p1 := preSaveProject now p
      .ok p1 (projects ++ [p1])

/-- The generate route's `catch`: map a thrown message to an HTTP status
through the same ordered substring tests as the source. -/
def mapGenerateError (m : String) : Nat :=
  if containsSub m "Authentication required" then 401
  else if containsSub m "Repository access required" then 403
  else if containsSub m "duplicate key" then 409
  else if containsSub m "connection" || containsSub m "database" then 500
  else
    let lm := lowerStr m
    if containsSub lm "github" || containsSub lm "repository not found" then 404
    else if containsSub lm "authentication" || containsSub lm "api key" || containsSub lm "token" then 401
    else if containsSub lm "timeout" || containsSub lm "timed out" then 408
    else if containsSub lm "rate limit" || containsSub lm "quota" then 429
    else 500

/-- Result of the generate route: 400 on schema failure, a mapped status
for every thrown error, 400 for the dead consistency re-check and the
empty-repository case, 201 with the response payload on success. -/
inductive GenerateOutcome where
  | validationError
  | httpError (status : Nat)
  | invalidUrlError
  | noCommits
  | created (changelogId aiSummary version projectId : String) (commitCount : Nat)
deriving DecidableEq, Repr

/-- The environment of one generate request: the session, the behaviour
of the collaborators, and the fresh identifiers the handler draws. The
`User.findOrCreateFromGitHub` sync step is modelled as returning the
session's user unchanged (its logic touches only the users collection,
which no specified property observes). -/
structure GenEnv where
  session : Option AuthUser
  repoAccess : Except String AccessCheck
  allCommits : List CommitData
  llm : LlmBehavior
  apiKeyPresent : Bool
  githubPatPresent : Bool
  now : Nat
  date : DateParts
  newProjectId : String
  newChangelogId : String

/-- The generate route after request validation, taking the already
trimmed project name, the normalized URL and the commit count. -/
def generateRouteCore (env : GenEnv) (db : DB) (name nurl : String)
    (commitCount : Int) : GenerateOutcome × DB :=
  match env.session with
  | none => (.httpError (mapGenerateError "Authentication required"), db)
  | some user =>
    let access := checkRepositoryAccess env.repoAccess
    if ¬ access.canAccess then
      (.httpError (mapGenerateError (access.error.getD "Repository access required")), db)
    else
      match resolveOrCreateProject db.projects user.id name env.newProjectId env.now nurl with
      | .invalidUrl => (.invalidUrlError, db)
      | .ok project projects1 =>
        let db1 : DB := { db with projects := projects1 }
        match fetchRecentCommitsByCount nurl commitCount env.githubPatPresent env.allCommits with
        | .error m => (.httpError (mapGenerateError m), db1)
        | .ok commits =>
          if commits.isEmpty then (.noCommits, db1)
          else
            match generateSummary commits env.llm env.apiKeyPresent with
            | .error m => (.httpError (mapGenerateError m), db1)
            | .ok summaryAi =>
              let version := generateVersion env.date
              let changelog : ChangelogDoc :=
                { id := env.newChangelogId, project_id := project.id,
                  created_by := some user.id, version := version,
                  summary_ai := summaryAi, summary_final := none,
                  commit_hashes := commits.map (fun c => c.sha),
                  generated_at := env.now, published_at := none,
                  status := .draft }
              let db2 : DB := { db1 with changelogs := db1.changelogs ++ [changelog] }
              let db3 : DB :=
                { db2 with projects :=
                    updateFirst (fun p => p.id = project.id) (preSaveProject env.now) db2.projects }
              (.created env.newChangelogId summaryAi version project.id commits.length, db3)

/-- `POST /api/developer/generate-changelog`: zod validation (the parsed
`project_name` carries the `.trim()` transform), URL normalization, then
the pipeline. -/
def generateRoute (env : GenEnv) (db : DB) (req : GenerateRequest) : GenerateOutcome × DB :=
  if validGenerateRequest req then
    generateRouteCore env db (strTrim req.project_name)
      (normalizeRepoUrl req.repo_url) req.commit_count
  else (.validationError, db)

/-- The first half of the claimed equivalence: a changelog is `published`
exactly when it carries a publish timestamp. -/
def statusMatchesPublishedAt (c : ChangelogDoc) : Prop :=
  c.status = .published ↔ c.published_at ≠ none

/-! ## Concrete fixtures for counterexamples and witnesses -/

/-- A well-formed changelog id (zod UUID format). -/
def sampleChangelogId : String := "123e4567-e89b-12d3-a456-426614174000"

/-- A draft changelog created by user `alice`. -/
def sampleDraft : ChangelogDoc :=
  { id := sampleChangelogId, project_id := "pid-1", created_by := some "alice",
    version := "2025.01.01-1200", summary_ai := "ai text", summary_final := none,
    commit_hashes := [], generated_at := 1, published_at := none, status := .draft }

/-- The project owning `sampleDraft`. -/
def sampleProject : ProjectDoc :=
  { id := "pid-1", name := "Widgets", repo_url := "https://github.com/acme/widgets",
    description := none, owner_id := some "alice", github_repo_owner := "acme",
    github_repo_name := "widgets", created_at := 0, updated_at := 1 }

/-- A store holding the sample project and its draft changelog. -/
def sampleDB : DB := { projects := [sampleProject], changelogs := [sampleDraft] }

/-- A valid publish request for `sampleDraft`. -/
def samplePublishReq : PublishRequest :=
  { changelog_id := sampleChangelogId, summary_final := "Added X" }

/-- An authenticated caller distinct from the creator of `sampleDraft`. -/
def sampleCaller : AuthUser := { id := "bob", username := "bob", accessToken := "tok" }

/-- Three sample commits, most recent first. -/
def sampleCommits : List CommitData :=
  [ { sha := "sha1", message := "feat: a", authorName := "a", authorEmail := "a@x", date := "d1" },
    { sha := "sha2", message := "fix: b", authorName := "b", authorEmail := "b@x", date := "d2" },
    { sha := "sha3", message := "docs: c", authorName := "c", authorEmail := "c@x", date := "d3" } ]

/-- A fully healthy environment for the generate route. -/
def sampleEnv : GenEnv :=
  { session := some sampleCaller,
    repoAccess := .ok { canAccess := true, isOwner := true, hasWriteAccess := true, error := none },
    allCommits := sampleCommits,
    llm := .responds 100 "Generated changelog",
    apiKeyPresent := true, githubPatPresent := true, now := 50,
    date := { year := 2025, month := 3, day := 7, hour := 9, minute := 5 },
    newProjectId := "pid-new", newChangelogId := "cid-new" }

/-- A valid generate request for the sample repository. -/
def sampleGenReq : GenerateRequest :=
  { project_name := "Widgets", repo_url := "https://github.com/acme/widgets",
    commit_count := 3 }

/-! ## Lemmas about `updateFirst` -/

theorem length_updateFirst (p : α → Bool) (f : α → α) (l : List α) :
    (updateFirst p f l).length = l.length := by
  induction l with
  | nil => rfl
  | cons x xs ih =>
    simp only [updateFirst]
    split <;> simp [ih]

theorem find?_updateFirst_same (p : α → Bool) (f : α → α) (l : List α)
    (hpf : ∀ x, p (f x) = p x) :
    List.find? p (updateFirst p f l) = (List.find? p l).map f := by
  induction l with
  | nil => rfl
  | cons x xs ih =>
    simp only [updateFirst]
    by_cases hx : p x = true
    · simp [hx, List.find?_cons, hpf]
    · have hx' : p x = false := by simpa using hx
      simp [hx', List.find?_cons, hpf, ih]

theorem mem_updateFirst (p : α → Bool) (f : α → α) (l : List α) (y : α)
    (hy : y ∈ updateFirst p f l) :
    y ∈ l ∨ ∃ x, x ∈ l ∧ p x = true ∧ y = f x := by
  induction l with
  | nil => simp [updateFirst] at hy
  | cons x xs ih =>
    simp only [updateFirst] at hy
    by_cases hx : p x = true
    · rw [if_pos hx] at hy
      rcases List.mem_cons.mp hy with h | h
      · exact Or.inr ⟨x, List.mem_cons_self .., hx, h⟩
      · exact Or.inl (List.mem_cons_of_mem _ h)
    · rw [if_neg hx] at hy
      rcases List.mem_cons.mp hy with h | h
      · exact Or.inl (h ▸ List.mem_cons_self ..)
      · rcases ih h with h' | ⟨z, hz, hpz, hyz⟩
        · exact Or.inl (List.mem_cons_of_mem _ h')
        · exact Or.inr ⟨z, List.mem_cons_of_mem _ hz, hpz, hyz⟩

theorem toPagesAux_congr (perPage : Nat) (f1 f2 : Nat) (l : List CommitData)
    (h1 : l.length ≤ f1) (h2 : l.length ≤ f2) :
    toPagesAux perPage f1 l = toPagesAux perPage f2 l := by
  induction f1 using Nat.strong_induction_on generalizing f2 l with
  | _ f1 ih =>
    match f1, f2 with
    | 0, 0 => rfl
    | 0, g + 1 =>
      have : l = [] := List.length_eq_zero.mp (Nat.le_zero.mp h1)
      simp [toPagesAux, this]
    | g + 1, 0 =>
      have : l = [] := List.length_eq_zero.mp (Nat.le_zero.mp h2)
      simp [toPagesAux, this]
    | g1 + 1, g2 + 1 =>
      simp only [toPagesAux]
      split
      · rfl
      · rename_i h
        rcases not_or.mp h with ⟨-, hl⟩
        have hlen : 0 < l.length := List.length_pos.mpr hl
        have hdrop : (l.drop perPage).length ≤ g1 := by
          rw [List.length_drop]
          omega
        have hdrop2 : (l.drop perPage).length ≤ g2 := by
          rw [List.length_drop]
          omega
        rw [ih g1 (Nat.lt_succ_self _) g2 _ hdrop hdrop2]

/-- Unfolding equation for `toPages`. -/
theorem toPages_eq (perPage : Nat) (l : List CommitData) :
    toPages perPage l =
      if perPage = 0 ∨ l = [] then []
      else l.take perPage :: toPages perPage (l.drop perPage) := by
  rcases l with - | ⟨x, xs⟩
  · simp [toPages, toPagesAux]
  · by_cases hp : perPage = 0
    · simp [toPages, hp, toPagesAux]
    · have hp1 : 1 ≤ perPage := Nat.pos_of_ne_zero hp
      simp only [toPages, List.length_cons, toPagesAux, hp, false_or]
      have hdrop : ((x :: xs).drop perPage).length ≤ xs.length := by
        rw [List.length_drop]
        simp only [List.length_cons]
        omega
      rw [toPagesAux_congr perPage xs.length ((x :: xs).drop perPage).length _ hdrop le_rfl]

/-- The `while (commits.length < commitCount)` loop of
`_fetchGitHubRecentCommits`: fetch the next page, stop on an empty page,
otherwise push commits while the target count is not reached. -/

theorem fetchGitHubLoop_toPages (p count : Nat) (hp : 1 ≤ p) :
    ∀ (l : List CommitData) (acc : List CommitData), acc.length ≤ count →
      fetchGitHubLoop count (toPages p l) acc = acc ++ l.take (count - acc.length) := by
  suffices H : ∀ (n : Nat) (l : List CommitData), l.length = n →
      ∀ (acc : List CommitData), acc.length ≤ count →
        fetchGitHubLoop count (toPages p l) acc = acc ++ l.take (count - acc.length) by
    intro l acc hacc
    exact H l.length l rfl acc hacc
  intro n
  induction n using Nat.strong_induction_on with
  | _ n ih =>
    intro l hln acc hacc
    rw [toPages_eq]
    by_cases hl : l = []
    · simp [hl, fetchGitHubLoop]
    · rw [if_neg (by push_neg; exact ⟨by omega, hl⟩)]
      simp only [fetchGitHubLoop]
      by_cases hfull : acc.length < count
      · rw [if_pos hfull]
        have htake_ne : l.take p ≠ [] := by
          have : 0 < (l.take p).length := by
            rw [List.length_take]
            have : 0 < l.length := List.length_pos.mpr hl
            omega
          exact List.ne_nil_of_length_pos this
        rw [if_neg htake_ne]
        have hdroplen : (l.drop p).length < l.length := by
          rw [List.length_drop]
          have : 0 < l.length := List.length_pos.mpr hl
          omega
        set k := count - acc.length with hk
        have htt : (l.take p).take k = l.take (min k p) := List.take_take k p l
        have hlen2 : (acc ++ (l.take p).take k).length = acc.length + min (min k p) l.length := by
          simp [List.length_take]
        have hle2 : (acc ++ (l.take p).take k).length ≤ count := by
          rw [hlen2]
          omega
        rw [ih (l.drop p).length (by omega) (l.drop p) rfl _ hle2]
        rw [htt]
        rw [List.append_assoc]
        congr 1
        by_cases hkp : k ≤ p
        · have hmin1 : min k p = k := by omega
          rw [hmin1]
          by_cases hkt : k ≤ l.length
          · have hz : count - (acc ++ List.take k l).length = 0 := by
              simp only [List.length_append, List.length_take]
              omega
            rw [hz]
            simp
          · have hdnil : l.drop p = [] := List.drop_eq_nil_of_le (by omega)
            simp [hdnil]
        · have hmin1 : min k p = p := by omega
          rw [hmin1]
          by_cases hpt : p ≤ l.length
          · have hlen3 : (acc ++ List.take p l).length = acc.length + p := by
              simp only [List.length_append, List.length_take]
              omega
            rw [hlen3]
            have he1 : count - (acc.length + p) = k - p := by omega
            rw [he1]
            have he2 : k = p + (k - p) := by omega
            conv_rhs => rw [he2]
            rw [List.take_add]
          · have hdnil : l.drop p = [] := List.drop_eq_nil_of_le (by omega)
            have h1 : l.take k = l := List.take_of_length_le (by omega)
            have h2 : l.take p = l := List.take_of_length_le (by omega)
            simp [hdnil, h1, h2]
      · rw [if_neg hfull]
        have : count - acc.length = 0 := by omega
        simp [this]

theorem fetchGitHubRecentCommits_take (all : List CommitData) (count : Nat) :
    fetchGitHubRecentCommits true all count = .ok (all.take count) := by
  by_cases hc : count = 0
  · subst hc
    simp [fetchGitHubRecentCommits, toPages_eq, fetchGitHubLoop]
  · have hp : 1 ≤ min count 100 := by omega
    simp only [fetchGitHubRecentCommits]
    rw [if_neg (by simp)]
    rw [fetchGitHubLoop_toPages (min count 100) count hp all [] (by simp)]
    simp [List.take_take]

/-! ## URL, generator and store helper lemmas -/

theorem chompPrefix_eq_some (ps : List Char) :
    ∀ l rest, chompPrefix ps l = some rest → l = ps ++ rest := by
  induction ps with
  | nil =>
    intro l rest h
    simp only [chompPrefix, Option.some.injEq] at h
    simp [h]
  | cons p ps ih =>
    intro l rest h
    cases l with
    | nil => simp [chompPrefix] at h
    | cons c cs =>
      simp only [chompPrefix] at h
      split at h
      · rename_i hc
        subst hc
        simp [ih cs rest h]
      · exact absurd h (by simp)

theorem chompPrefix_append_self (ps t : List Char) :
    chompPrefix ps (ps ++ t) = some t := by
  induction ps with
  | nil => rfl
  | cons p ps ih => simp [chompPrefix, ih]

theorem takeWhile_all_eq (p : Char → Bool) (l : List Char)
    (h : ∀ a ∈ l, p a = true) : l.takeWhile p = l := by
  induction l with
  | nil => rfl
  | cons x xs ih =>
    rw [List.takeWhile_cons, if_pos (h x (List.mem_cons_self ..))]
    rw [ih (fun a ha => h a (List.mem_cons_of_mem _ ha))]

theorem dropWhile_all_eq (p : Char → Bool) (l : List Char)
    (h : ∀ a ∈ l, p a = true) : l.dropWhile p = [] := by
  induction l with
  | nil => rfl
  | cons x xs ih =>
    rw [List.dropWhile_cons, if_pos (h x (List.mem_cons_self ..))]
    exact ih (fun a ha => h a (List.mem_cons_of_mem _ ha))

theorem takeWhile_append_stop (p : Char → Bool) (l t : List Char) (x : Char)
    (h : ∀ a ∈ l, p a = true) (hx : p x = false) :
    (l ++ x :: t).takeWhile p = l ∧ (l ++ x :: t).dropWhile p = x :: t := by
  induction l with
  | nil => simp [List.takeWhile_cons, List.dropWhile_cons, hx]
  | cons y ys ih =>
    have hy : p y = true := h y (List.mem_cons_self ..)
    have hys := ih (fun a ha => h a (List.mem_cons_of_mem _ ha))
    simp only [List.cons_append, List.takeWhile_cons, List.dropWhile_cons, hy, if_pos]
    simp [hys.1, hys.2]

theorem toList_mk (l : List Char) : (String.mk l).toList = l := rfl

theorem mk_toList (s : String) : String.mk s.toList = s := by
  cases s
  rfl

/-- Decomposition of a successful strict GitHub-URL match. -/
theorem matchGitHubUrlChars_some (l : List Char) (o r : String)
    (h : matchGitHubUrlChars l = some (o, r)) :
    ∃ rest4, l = githubPrefix ++ (o.toList ++ '/' :: (r.toList ++ rest4)) ∧
      o.toList ≠ [] ∧ r.toList ≠ [] ∧
      (∀ a ∈ o.toList, isRepoChar a = true) ∧
      (∀ a ∈ r.toList, isRepoChar a = true) ∧
      (rest4 = [] ∨ rest4 = ['/']) := by
  simp only [matchGitHubUrlChars] at h
  cases hch : chompPrefix githubPrefix l with
  | none => rw [hch] at h; exact absurd h (by simp)
  | some rest =>
    rw [hch] at h
    simp only at h
    split at h
    · rename_i rest3 hdw
      split at h
      · rename_i hcond
        obtain ⟨how, hrp, hr4⟩ := hcond
        simp only [Option.some.injEq, Prod.mk.injEq] at h
        obtain ⟨ho, hr⟩ := h
        refine ⟨rest3.dropWhile isRepoChar, ?_, ?_, ?_, ?_, ?_, hr4⟩
        · rw [chompPrefix_eq_some _ _ _ hch]
          congr 1
          rw [← ho, ← hr, toList_mk, toList_mk]
          conv_lhs => rw [← List.takeWhile_append_dropWhile (p := isRepoChar) (l := rest)]
          rw [hdw]
          congr 1
          conv_lhs => rw [← List.takeWhile_append_dropWhile (p := isRepoChar) (l := rest3)]
        · rw [← ho, toList_mk]; exact how
        · rw [← hr, toList_mk]; exact hrp
        · rw [← ho, toList_mk]
          intro a ha
          exact List.mem_takeWhile_imp ha
        · rw [← hr, toList_mk]
          intro a ha
          exact List.mem_takeWhile_imp ha
      · exact absurd h (by simp)
    · exact absurd h (by simp)

/-- Reconstruction of a strict GitHub-URL match from its parts. -/
theorem matchGitHubUrlChars_construct (ow rp rest4 : List Char)
    (how : ow ≠ []) (hrp : rp ≠ [])
    (h1 : ∀ a ∈ ow, isRepoChar a = true) (h2 : ∀ a ∈ rp, isRepoChar a = true)
    (h4 : rest4 = [] ∨ rest4 = ['/']) :
    matchGitHubUrlChars (githubPrefix ++ (ow ++ '/' :: (rp ++ rest4))) =
      some (String.mk ow, String.mk rp) := by
  have hslash : isRepoChar '/' = false := rfl
  simp only [matchGitHubUrlChars, chompPrefix_append_self]
  obtain ⟨ht1, hd1⟩ := takeWhile_append_stop isRepoChar ow (rp ++ rest4) '/' h1 hslash
  rw [ht1, hd1]
  simp only
  have hrest3 : (rp ++ rest4).takeWhile isRepoChar = rp ∧
      (rp ++ rest4).dropWhile isRepoChar = rest4 := by
    rcases h4 with h4 | h4
    · subst h4
      simp only [List.append_nil]
      exact ⟨takeWhile_all_eq _ _ h2, dropWhile_all_eq _ _ h2⟩
    · subst h4
      exact takeWhile_append_stop isRepoChar rp [] '/' h2 hslash
  rw [hrest3.1, hrest3.2]
  rw [if_pos ⟨how, hrp, h4⟩]

theorem getLast?_of_all_repoChar (l : List Char) (hne : l ≠ [])
    (h : ∀ a ∈ l, isRepoChar a = true) : l.getLast? ≠ some '/' := by
  intro hlast
  rw [List.getLast?_eq_getLast l hne] at hlast
  have hg : l.getLast hne = '/' := by injection hlast
  have hmem : '/' ∈ l := hg ▸ List.getLast_mem hne
  have := h '/' hmem
  simp [isRepoChar] at this

/-- Tail analysis of a matched URL: without the optional trailing slash
the URL does not end in a slash; with it, the URL is the slash-free form
plus one final slash. -/
theorem matchGitHubUrlChars_getLast (l : List Char) (o r : String) (rest4 : List Char)
    (hl : l = githubPrefix ++ (o.toList ++ '/' :: (r.toList ++ rest4)))
    (hrne : r.toList ≠ []) (hrall : ∀ a ∈ r.toList, isRepoChar a = true)
    (_h4 : rest4 = [] ∨ rest4 = ['/']) :
    (rest4 = [] → l.getLast? ≠ some '/') ∧
    (rest4 = ['/'] → l = (githubPrefix ++ (o.toList ++ '/' :: r.toList)) ++ ['/']) := by
  constructor
  · intro h4nil
    subst h4nil
    rw [hl, List.append_nil]
    rw [List.getLast?_append_of_ne_nil _ (by simp)]
    rw [List.getLast?_append_cons]
    have : ('/' :: r.toList) = ['/'] ++ r.toList := rfl
    rw [this, List.getLast?_append_of_ne_nil _ hrne]
    exact getLast?_of_all_repoChar r.toList hrne hrall
  · intro h4s
    subst h4s
    rw [hl]
    simp [List.append_assoc]

/-- Normalization preserves a successful strict match: stripping the
optional trailing slash leaves the same owner/repo pair. -/
theorem matchGitHubUrlChars_normChars (l : List Char) (o r : String)
    (h : matchGitHubUrlChars l = some (o, r)) :
    matchGitHubUrlChars (normChars l) = some (o, r) := by
  obtain ⟨rest4, hl, hone, hrne, hoall, hrall, h4⟩ := matchGitHubUrlChars_some l o r h
  obtain ⟨hnoslash, hslash⟩ := matchGitHubUrlChars_getLast l o r rest4 hl hrne hrall h4
  rcases h4 with h4 | h4
  · have : normChars l = l := by
      rw [normChars, if_neg (hnoslash h4)]
    rw [this]
    exact h
  · have hl2 := hslash h4
    have hlast : l.getLast? = some '/' := by
      rw [hl2]
      exact List.getLast?_concat _
    have : normChars l = githubPrefix ++ (o.toList ++ '/' :: r.toList) := by
      rw [normChars, if_pos hlast, hl2, List.dropLast_concat]
    rw [this]
    have hc := matchGitHubUrlChars_construct o.toList r.toList [] hone hrne hoall hrall
      (Or.inl rfl)
    rw [List.append_nil] at hc
    rw [hc, mk_toList, mk_toList]

/-- Appending a slash to a matched slash-free URL preserves the match. -/
theorem matchGitHubUrlChars_append_slash (l : List Char) (o r : String)
    (h : matchGitHubUrlChars l = some (o, r))
    (hlast : l.getLast? ≠ some '/') :
    matchGitHubUrlChars (l ++ ['/']) = some (o, r) := by
  obtain ⟨rest4, hl, hone, hrne, hoall, hrall, h4⟩ := matchGitHubUrlChars_some l o r h
  obtain ⟨hnoslash, hslash⟩ := matchGitHubUrlChars_getLast l o r rest4 hl hrne hrall h4
  rcases h4 with h4 | h4
  · subst h4
    rw [List.append_nil] at hl
    have hc := matchGitHubUrlChars_construct o.toList r.toList ['/'] hone hrne hoall hrall
      (Or.inr rfl)
    rw [mk_toList, mk_toList] at hc
    rw [hl]
    rw [← hc]
    congr 1
    simp
  · exact absurd (by rw [hslash h4]; exact List.getLast?_concat _) hlast

theorem toList_append (s t : String) : (s ++ t).toList = s.toList ++ t.toList := rfl

theorem normalizeRepoUrl_of_no_slash (u : String) (h : u.toList.getLast? ≠ some '/') :
    normalizeRepoUrl u = u := by
  rw [normalizeRepoUrl, normChars, if_neg h, mk_toList]

theorem normalizeRepoUrl_append_slash (u : String) :
    normalizeRepoUrl (u ++ "/") = u := by
  rw [normalizeRepoUrl, toList_append]
  have hs : ("/" : String).toList = ['/'] := rfl
  rw [hs, normChars, if_pos (List.getLast?_concat _), List.dropLast_concat, mk_toList]

theorem githubUrlTest_append_slash (u : String) (h : githubUrlTest u = true)
    (hlast : u.toList.getLast? ≠ some '/') : githubUrlTest (u ++ "/") = true := by
  simp only [githubUrlTest, matchGitHubUrl, Option.isSome_iff_exists] at h ⊢
  obtain ⟨⟨o, r⟩, ho⟩ := h
  refine ⟨(o, r), ?_⟩
  rw [toList_append]
  have hs : ("/" : String).toList = ['/'] := rfl
  rw [hs]
  exact matchGitHubUrlChars_append_slash _ o r ho hlast

theorem matchGitHubUrl_normalize (u : String) (h : githubUrlTest u = true) :
    ∃ pr, matchGitHubUrl (normalizeRepoUrl u) = some pr := by
  simp only [githubUrlTest, matchGitHubUrl, Option.isSome_iff_exists] at h
  obtain ⟨⟨o, r⟩, ho⟩ := h
  refine ⟨(o, r), ?_⟩
  have : (normalizeRepoUrl u).toList = normChars u.toList := by
    rw [normalizeRepoUrl, toList_mk]
  rw [matchGitHubUrl, this]
  exact matchGitHubUrlChars_normChars _ o r ho

theorem generateSummary_timeout_result (commits : List CommitData) (t : Nat) (txt : String)
    (hne : commits ≠ []) (ht : GENERATION_TIMEOUT ≤ t) :
    generateSummary commits (.responds t txt) true =
      .error "AI changelog generation failed: Gemini AI request timed out after 15000ms" := by
  have hne' : commits.isEmpty = false := by
    cases commits
    · exact absurd rfl hne
    · rfl
  simp only [generateSummary, generateSummaryRaw, hne', Bool.false_eq_true, if_false,
    not_true, ite_false, if_pos ht]
  rfl

theorem generateSummary_responds_timeout_error (commits : List CommitData) (t : Nat)
    (txt : String) (ak : Bool) (hne : commits ≠ []) (ht : GENERATION_TIMEOUT ≤ t) :
    ∃ m, generateSummary commits (.responds t txt) ak = .error m := by
  have hne' : commits.isEmpty = false := by
    cases commits
    · exact absurd rfl hne
    · rfl
  cases ak
  · exact ⟨mapLlmError "GEMINI_API_KEY environment variable is required for AI changelog generation",
      by simp [generateSummary, generateSummaryRaw, hne']⟩
  · exact ⟨_, generateSummary_timeout_result commits t txt hne ht⟩

theorem fetchRecentCommitsByCount_ok (url : String) (c : Int) (all : List CommitData)
    (hw : commitCountInWindow c = true) (pr : String × String)
    (hparse : parseRepoUrl url = some pr) :
    fetchRecentCommitsByCount url c true all = .ok (all.take c.toNat) := by
  simp [fetchRecentCommitsByCount, hw, hparse, fetchGitHubRecentCommits_take]

theorem claimOwner_id (uid : String) (p : ProjectDoc) : (claimOwner uid p).id = p.id := by
  rw [claimOwner]
  split <;> rfl

theorem backfillGitHub_id (nurl : String) (p : ProjectDoc) :
    (backfillGitHub nurl p).id = p.id := by
  rw [backfillGitHub]
  split
  · split <;> rfl
  · rfl

theorem preSaveProject_id (now : Nat) (p : ProjectDoc) :
    (preSaveProject now p).id = p.id := by
  simp only [preSaveProject]
  split <;> rfl

/-! ## Claims -/

/-- C1 (counterexample): the publish route performs no ownership check.
`sampleDraft` was created by `alice`, the caller is `bob`, yet the publish
request succeeds and the changelog is mutated to `published`. -/
theorem c1_publish_without_ownership_cex :
    sampleDraft.created_by = some "alice" ∧
    sampleCaller.id = "bob" ∧
    (publishChangelogRoute sampleDB 100 (some sampleCaller) samplePublishReq).1 =
      .ok sampleChangelogId "2025.01.01-1200" 100 "pid-1" ∧
    ((publishChangelogRoute sampleDB 100 (some sampleCaller) samplePublishReq).2.changelogs.find?
        (fun d => d.id = sampleChangelogId)).map (fun d => d.status) =
      some .published := by
  refine ⟨rfl, rfl, ?_, ?_⟩ <;> rfl

/-- C1 (amended): the publish route enforces neither authentication nor
changelog ownership: a valid publish request on an existing draft
succeeds for every session, including an absent one or one whose user is
not the creator, and transitions the changelog to `published`.
(`requireAuthAndChangelogOwnership` exists in the middleware but is only
called by the delete route.) -/
theorem c1_publish_ignores_ownership (db : DB) (now : Nat) (caller : Option AuthUser)
    (req : PublishRequest) (c : ChangelogDoc) (owner : String)
    (hv : validPublishRequest req = true)
    (hf : db.changelogs.find? (fun d => d.id = req.changelog_id) = some c)
    (hd : c.status = .draft)
    (_hown : c.created_by = some owner)
    (_hnot : ∀ u, caller = some u → u.id ≠ owner) :
    (publishChangelogRoute db now caller req).1 = .ok c.id c.version now c.project_id ∧
    ((publishChangelogRoute db now caller req).2.changelogs.find?
        (fun d => d.id = req.changelog_id)).map (fun d => d.status) =
      some .published := by
  have hnp : ¬ c.status = Status.published := by
    rw [hd]
    intro h
    exact Status.noConfusion h
  have hfind :
      List.find? (fun d => decide (d.id = req.changelog_id))
        (updateFirst (fun d => decide (d.id = req.changelog_id))
          (applyPublishUpdate now req.summary_final) db.changelogs) =
        some (applyPublishUpdate now req.summary_final c) := by
    rw [find?_updateFirst_same (fun d => decide (d.id = req.changelog_id))
        (applyPublishUpdate now req.summary_final) db.changelogs (by intro x; rfl), hf]
    rfl
  constructor
  · simp only [publishChangelogRoute, hv, not_true, if_neg, ite_false]
    rw [hf]
    simp [hnp]
    exact ⟨rfl, rfl, rfl⟩
  · simp only [publishChangelogRoute, hv, not_true, if_neg, ite_false]
    rw [hf]
    simp only [hnp, ite_false, if_neg]
    simp [hfind]
    rfl

/-- C1 (witness): `c1_publish_ignores_ownership` at the sample store. -/
theorem c1_publish_ignores_ownership_witness :
    (publishChangelogRoute sampleDB 100 (some sampleCaller) samplePublishReq).1 =
      .ok sampleDraft.id sampleDraft.version 100 sampleDraft.project_id ∧
    ((publishChangelogRoute sampleDB 100 (some sampleCaller) samplePublishReq).2.changelogs.find?
        (fun d => d.id = samplePublishReq.changelog_id)).map (fun d => d.status) =
      some .published := by
  refine c1_publish_ignores_ownership sampleDB 100 (some sampleCaller) samplePublishReq
    sampleDraft "alice" (by decide) (by decide) rfl rfl ?_
  intro u hu
  injection hu with h
  subst h
  decide

/-- C2 (counterexample): `commitCount = 500` lies outside `[1, 100]`, yet
`fetchRecentCommitsByCount` does not fail with the invalid-commit-count
error — it proceeds and succeeds. The `[1, 100]` bound is not enforced by
the adapter. -/
theorem c2_adapter_accepts_count_500_cex :
    ¬ (1 ≤ (500 : Int) ∧ (500 : Int) ≤ 100) ∧
    fetchRecentCommitsByCount "https://github.com/acme/widgets" 500 true [] =
      .ok [] := by
  refine ⟨by decide, rfl⟩

/-- C2 (amended): the adapter's own window is `[1, 1000]`: counts outside
it fail with the invalid-commit-count error before any network access
(the result is this error for every repository content), counts in
`[1, 100]` pass the window check and, over a parsable GitHub URL with the
token present, reach the paginated fetch; the `[1, 100]` bound itself is
enforced by the route's request schema, which rejects any commit count
outside `[1, 100]`. -/
theorem c2_commit_count_validation :
    (∀ (url : String) (pat : Bool) (c : Int), c ≤ 0 ∨ 1000 < c → ∀ all,
      fetchRecentCommitsByCount url c pat all =
        .error ("Failed to fetch recent commits from " ++ url ++ ": " ++
          "Commit count must be between 1 and 1000")) ∧
    (∀ c : Int, 1 ≤ c → c ≤ 100 → commitCountInWindow c = true) ∧
    (∀ (url : String) (c : Int) (pr : String × String), 1 ≤ c → c ≤ 100 →
      parseRepoUrl url = some pr → ∀ all,
      fetchRecentCommitsByCount url c true all = .ok (all.take c.toNat)) ∧
    (∀ r : GenerateRequest, r.commit_count ≤ 0 ∨ 100 < r.commit_count →
      validGenerateRequest r = false) := by
  refine ⟨?_, ?_, ?_, ?_⟩
  · intro url pat c hc all
    have hw : commitCountInWindow c = false := by
      simp [commitCountInWindow]
      omega
    simp [fetchRecentCommitsByCount, hw]
  · intro c h1 h2
    simp [commitCountInWindow]
    omega
  · intro url c pr h1 h2 hparse all
    have hw : commitCountInWindow c = true := by
      simp [commitCountInWindow]
      omega
    simp [fetchRecentCommitsByCount, hw, hparse, fetchGitHubRecentCommits_take]
  · intro r hr
    simp only [validGenerateRequest]
    have h1 : (decide (1 ≤ r.commit_count) && decide (r.commit_count ≤ 100)) = false := by
      rcases hr with h | h
      · simp only [Bool.and_eq_false_iff]
        left
        simpa using by omega
      · simp only [Bool.and_eq_false_iff]
        right
        simpa using by omega
    cases hd1 : decide (1 ≤ r.commit_count) <;> cases hd2 : decide (r.commit_count ≤ 100) <;>
      simp_all

/-- C2 (witness): concrete instances of every part of
`c2_commit_count_validation`. -/
theorem c2_commit_count_validation_witness :
    fetchRecentCommitsByCount "https://github.com/acme/widgets" 1500 true [] =
      .error "Failed to fetch recent commits from https://github.com/acme/widgets: Commit count must be between 1 and 1000" ∧
    commitCountInWindow 50 = true ∧
    fetchRecentCommitsByCount "https://github.com/acme/widgets" 2 true sampleCommits =
      .ok (sampleCommits.take 2) ∧
    validGenerateRequest { sampleGenReq with commit_count := 500 } = false := by
  obtain ⟨h1, h2, h3, h4⟩ := c2_commit_count_validation
  refine ⟨?_, h2 50 (by decide) (by decide), ?_, h4 _ (by decide)⟩
  · have := h1 "https://github.com/acme/widgets" true 1500 (by decide) []
    simpa using this
  · have := h3 "https://github.com/acme/widgets" 2 ("acme", "widgets") (by decide) (by decide)
      (by rfl) sampleCommits
    simpa using this

/-- C3 (counterexample): the three-way equivalence is not preserved by
every mutation. `sampleDraft` satisfies it, but
`ChangelogSchema.methods.publish()` invoked without a `summary_final`
argument yields a `published` changelog whose `summary_final` is still
`null`, breaking `status == 'published' ⇔ summary_final != null`. -/
theorem c3_method_publish_breaks_equivalence_cex :
    ((sampleDraft.status = .published ↔ sampleDraft.published_at ≠ none) ∧
      (sampleDraft.status = .published ↔ sampleDraft.summary_final ≠ none)) ∧
    (changelogMethodPublish 5 none sampleDraft).status = .published ∧
    (changelogMethodPublish 5 none sampleDraft).summary_final = none ∧
    ¬ ((changelogMethodPublish 5 none sampleDraft).status = .published ↔
        (changelogMethodPublish 5 none sampleDraft).summary_final ≠ none) := by
  refine ⟨⟨?_, ?_⟩, rfl, rfl, ?_⟩ <;> decide

/-- C3 (amended): the equivalence `status == 'published' ⇔
published_at != null` is established by draft creation and preserved by
every modelled mutation (the route publish, the schema `publish` and
`unpublish` methods, and the generate route); the stronger three-way
equivalence including `summary_final` fails (see the counterexample). -/
theorem c3_status_iff_published_at_invariant :
    (∀ (now : Nat) (sf : Option String) (c : ChangelogDoc),
      statusMatchesPublishedAt (changelogMethodPublish now sf c)) ∧
    (∀ c : ChangelogDoc, statusMatchesPublishedAt (changelogMethodUnpublish c)) ∧
    (∀ (db : DB) (now : Nat) (s : Option AuthUser) (req : PublishRequest),
      (∀ c ∈ db.changelogs, statusMatchesPublishedAt c) →
      ∀ c ∈ (publishChangelogRoute db now s req).2.changelogs, statusMatchesPublishedAt c) ∧
    (∀ (env : GenEnv) (db : DB) (req : GenerateRequest),
      (∀ c ∈ db.changelogs, statusMatchesPublishedAt c) →
      ∀ c ∈ (generateRoute env db req).2.changelogs, statusMatchesPublishedAt c) := by
  refine ⟨?_, ?_, ?_, ?_⟩
  · intro now sf c
    rcases sf with - | s
    · simp [changelogMethodPublish, statusMatchesPublishedAt]
    · simp only [changelogMethodPublish, statusMatchesPublishedAt]
      split <;> simp
  · intro c
    simp [changelogMethodUnpublish, statusMatchesPublishedAt]
  · intro db now s req hdb c hc
    simp only [publishChangelogRoute] at hc
    split at hc
    · exact hdb c hc
    · split at hc
      · exact hdb c hc
      · split at hc
        · exact hdb c hc
        · simp only at hc
          rcases mem_updateFirst _ _ _ _ hc with h | ⟨x, -, -, hx⟩
          · exact hdb c h
          · subst hx
            simp [applyPublishUpdate, statusMatchesPublishedAt]
  · intro env db req hdb c hc
    simp only [generateRoute] at hc
    split at hc
    · simp only [generateRouteCore] at hc
      split at hc
      · exact hdb c hc
      · split at hc
        · exact hdb c hc
        · split at hc
          · exact hdb c hc
          · split at hc
            · exact hdb c hc
            · split at hc
              · exact hdb c hc
              · split at hc
                · exact hdb c hc
                · simp only [List.mem_append, List.mem_singleton] at hc
                  rcases hc with h | h
                  · exact hdb c h
                  · subst h
                    simp [statusMatchesPublishedAt]
    · exact hdb c hc

/-- C3 (witness): the invariant theorem applied at concrete inputs. -/
theorem c3_status_iff_published_at_invariant_witness :
    statusMatchesPublishedAt (changelogMethodPublish 7 (some "final") sampleDraft) ∧
    statusMatchesPublishedAt (changelogMethodUnpublish sampleDraft) ∧
    (∀ c ∈ (publishChangelogRoute sampleDB 100 none samplePublishReq).2.changelogs,
      statusMatchesPublishedAt c) ∧
    (∀ c ∈ (generateRoute sampleEnv sampleDB sampleGenReq).2.changelogs,
      statusMatchesPublishedAt c) := by
  obtain ⟨h1, h2, h3, h4⟩ := c3_status_iff_published_at_invariant
  have hdb : ∀ c ∈ sampleDB.changelogs, statusMatchesPublishedAt c := by
    intro c hc
    simp only [sampleDB, List.mem_singleton] at hc
    subst hc
    simp [statusMatchesPublishedAt, sampleDraft]
  exact ⟨h1 7 (some "final") sampleDraft, h2 sampleDraft,
    h3 sampleDB 100 none samplePublishReq hdb, h4 sampleEnv sampleDB sampleGenReq hdb⟩

/-- C4: publish is not idempotent. A valid publish of an existing draft
succeeds; any further valid publish request naming the same changelog id
is rejected with the 409 already-published conflict, the store is left
exactly as after the first call, and `published_at` keeps the value set
by the first call. -/
theorem c4_publish_not_idempotent (db : DB) (t1 t2 : Nat) (s1 s2 : Option AuthUser)
    (req1 req2 : PublishRequest) (c : ChangelogDoc)
    (hv1 : validPublishRequest req1 = true)
    (hv2 : validPublishRequest req2 = true)
    (hid : req2.changelog_id = req1.changelog_id)
    (hf : db.changelogs.find? (fun d => d.id = req1.changelog_id) = some c)
    (hd : c.status = .draft) :
    (publishChangelogRoute db t1 s1 req1).1 = .ok c.id c.version t1 c.project_id ∧
    (publishChangelogRoute (publishChangelogRoute db t1 s1 req1).2 t2 s2 req2).1 =
      .alreadyPublished ∧
    (publishChangelogRoute (publishChangelogRoute db t1 s1 req1).2 t2 s2 req2).2 =
      (publishChangelogRoute db t1 s1 req1).2 ∧
    ((publishChangelogRoute db t1 s1 req1).2.changelogs.find?
        (fun d => d.id = req2.changelog_id)).map (fun d => d.published_at) =
      some (some t1) := by
  have hnp : ¬ c.status = Status.published := by
    rw [hd]
    intro h
    exact Status.noConfusion h
  have hchl : (publishChangelogRoute db t1 s1 req1).2.changelogs =
      updateFirst (fun d => d.id = req1.changelog_id)
        (applyPublishUpdate t1 req1.summary_final) db.changelogs := by
    simp only [publishChangelogRoute, hv1, not_true, ite_false]
    rw [hf]
    simp [hnp]
  have hfind2 : (publishChangelogRoute db t1 s1 req1).2.changelogs.find?
      (fun d => d.id = req2.changelog_id) =
        some (applyPublishUpdate t1 req1.summary_final c) := by
    rw [hid, hchl, find?_updateFirst_same (fun d => decide (d.id = req1.changelog_id))
      (applyPublishUpdate t1 req1.summary_final) db.changelogs (by intro x; rfl), hf]
    rfl
  refine ⟨?_, ?_, ?_, ?_⟩
  · simp only [publishChangelogRoute, hv1, not_true, ite_false]
    rw [hf]
    simp [hnp]
    exact ⟨rfl, rfl, rfl⟩
  · generalize hg : (publishChangelogRoute db t1 s1 req1).2 = db1 at hfind2
    simp only [publishChangelogRoute, hv2, not_true, ite_false]
    rw [hfind2]
    rfl
  · generalize hg : (publishChangelogRoute db t1 s1 req1).2 = db1 at hfind2
    simp only [publishChangelogRoute, hv2, not_true, ite_false]
    rw [hfind2]
    rfl
  · rw [hfind2]
    rfl

/-- C4 (witness): `c4_publish_not_idempotent` on the sample store, with a
second publish attempt carrying a different final text. -/
theorem c4_publish_not_idempotent_witness :
    (publishChangelogRoute sampleDB 100 none samplePublishReq).1 =
      .ok sampleDraft.id sampleDraft.version 100 sampleDraft.project_id ∧
    (publishChangelogRoute (publishChangelogRoute sampleDB 100 none samplePublishReq).2 200 none
        { changelog_id := sampleChangelogId, summary_final := "Other text" }).1 =
      .alreadyPublished ∧
    ((publishChangelogRoute sampleDB 100 none samplePublishReq).2.changelogs.find?
        (fun d => d.id = sampleChangelogId)).map (fun d => d.published_at) =
      some (some 100) := by
  obtain ⟨h1, h2, h3, h4⟩ := c4_publish_not_idempotent sampleDB 100 200 none none
    samplePublishReq { changelog_id := sampleChangelogId, summary_final := "Other text" }
    sampleDraft (by decide) (by decide) rfl (by decide) rfl
  exact ⟨h1, h2, h4⟩

/-- C5: when the LLM has not responded within the 15-second deadline, no
changelog document is created or persisted — the changelog collection is
untouched for every request and store — and a request that reaches the
generation step fails with the 408 timeout response. -/
theorem c5_generation_timeout_no_draft
    (env : GenEnv) (db : DB) (req : GenerateRequest) (t : Nat) (txt : String)
    (hllm : env.llm = .responds t txt)
    (ht : GENERATION_TIMEOUT ≤ t) :
    (generateRoute env db req).2.changelogs = db.changelogs ∧
    (∀ a b c d e, (generateRoute env db req).1 ≠ .created a b c d e) ∧
    (∀ user : AuthUser,
      validGenerateRequest req = true →
      env.session = some user →
      (checkRepositoryAccess env.repoAccess).canAccess = true →
      env.githubPatPresent = true →
      env.apiKeyPresent = true →
      (∃ pr, parseRepoUrl (normalizeRepoUrl req.repo_url) = some pr) →
      env.allCommits ≠ [] →
      (generateRoute env db req).1 = .httpError 408) := by
  have hsummary : ∀ commits : List CommitData, commits ≠ [] →
      ∃ m, generateSummary commits env.llm env.apiKeyPresent = .error m := by
    intro commits hc
    rw [hllm]
    exact generateSummary_responds_timeout_error commits t txt env.apiKeyPresent hc ht
  refine ⟨?_, ?_, ?_⟩
  · simp only [generateRoute]
    split
    · simp only [generateRouteCore]
      split
      · rfl
      · split
        · rfl
        · split
          · rfl
          · split
            · rfl
            · split
              · rfl
              · split
                · rfl
                · rename_i commits hfeq hie scrut summaryAi hsum
                  obtain ⟨m, hm⟩ := hsummary commits (by
                    intro hnil
                    subst hnil
                    simp at hie)
                  rw [hm] at hsum
                  exact absurd hsum (by simp)
    · rfl
  · intro a b c d e
    simp only [generateRoute]
    split
    · simp only [generateRouteCore]
      split
      · simp
      · split
        · simp
        · split
          · simp
          · split
            · simp
            · split
              · simp
              · split
                · simp
                · rename_i commits hfeq hie scrut summaryAi hsum
                  obtain ⟨m, hm⟩ := hsummary commits (by
                    intro hnil
                    subst hnil
                    simp at hie)
                  rw [hm] at hsum
                  exact absurd hsum (by simp)
    · simp
  · intro user hv hses hacc hpat hak hex hall
    obtain ⟨pr, hparse⟩ := hex
    have hv' := hv
    simp only [validGenerateRequest, Bool.and_eq_true, decide_eq_true_eq] at hv'
    obtain ⟨⟨⟨⟨hn1, hn2⟩, hurl⟩, hc1⟩, hc2⟩ := hv'
    have hw : commitCountInWindow req.commit_count = true := by
      simp only [commitCountInWindow, decide_eq_true_eq]
      push_neg
      omega
    have hcommits_ne : env.allCommits.take req.commit_count.toNat ≠ [] := by
      have hpos : 0 < req.commit_count.toNat := by omega
      have hlen : 0 < (env.allCommits.take req.commit_count.toNat).length := by
        rw [List.length_take]
        have : 0 < env.allCommits.length := List.length_pos.mpr hall
        omega
      exact List.ne_nil_of_length_pos hlen
    have hie : (env.allCommits.take req.commit_count.toNat).isEmpty = false := by
      cases hx : env.allCommits.take req.commit_count.toNat
      · exact absurd hx hcommits_ne
      · rfl
    have hsumeq : generateSummary (env.allCommits.take req.commit_count.toNat) env.llm
        env.apiKeyPresent =
        .error "AI changelog generation failed: Gemini AI request timed out after 15000ms" := by
      rw [hllm, hak]
      exact generateSummary_timeout_result _ t txt hcommits_ne ht
    have hmap : mapGenerateError
        "AI changelog generation failed: Gemini AI request timed out after 15000ms" = 408 := by
      rfl
    rw [generateRoute, if_pos hv]
    rw [generateRouteCore, hses]
    simp only [hacc, not_true, ite_false, Bool.not_true, if_false]
    cases hfind : db.projects.find? (fun p => p.repo_url = normalizeRepoUrl req.repo_url) with
    | some p =>
      simp only [resolveOrCreateProject, hfind]
      rw [hpat, fetchRecentCommitsByCount_ok _ _ _ hw pr hparse]
      simp only [hie, Bool.false_eq_true, if_false, hsumeq, hmap]
    | none =>
      obtain ⟨spr, hsm⟩ := matchGitHubUrl_normalize req.repo_url hurl
      simp only [resolveOrCreateProject, hfind, hsm]
      rw [hpat, fetchRecentCommitsByCount_ok _ _ _ hw pr hparse]
      simp only [hie, Bool.false_eq_true, if_false, hsumeq, hmap]

/-- C5 (witness): the timeout theorem at a concrete environment whose
LLM answers only at the 15-second mark. -/
theorem c5_generation_timeout_no_draft_witness :
    (generateRoute { sampleEnv with llm := .responds 15000 "late" }
        sampleDB sampleGenReq).2.changelogs = sampleDB.changelogs ∧
    (generateRoute { sampleEnv with llm := .responds 15000 "late" }
        sampleDB sampleGenReq).1 = .httpError 408 := by
  obtain ⟨h1, h2, h3⟩ := c5_generation_timeout_no_draft
    { sampleEnv with llm := .responds 15000 "late" } sampleDB sampleGenReq 15000 "late"
    rfl (by decide)
  refine ⟨h1, h3 sampleCaller (by decide) rfl (by decide) rfl rfl
    ⟨("acme", "widgets"), by rfl⟩ (by decide)⟩

/-- C6: (a) for a valid repository URL without a trailing slash, the
generate route treats the URL and the URL plus a trailing slash
identically — same outcome, same store, hence same project; (b) when the
normalized URL is already registered, a generation request never creates
a second project row (the collection size is preserved) and a successful
request reports the registered project's id. -/
theorem c6_repo_url_normalization_and_uniqueness :
    (∀ (env : GenEnv) (db : DB) (name : String) (cc : Int) (u : String),
      githubUrlTest u = true →
      u.toList.getLast? ≠ some '/' →
      generateRoute env db { project_name := name, repo_url := u, commit_count := cc } =
        generateRoute env db
          { project_name := name, repo_url := u ++ "/", commit_count := cc }) ∧
    (∀ (env : GenEnv) (db : DB) (req : GenerateRequest) (p : ProjectDoc),
      db.projects.find? (fun q => q.repo_url = normalizeRepoUrl req.repo_url) = some p →
      (generateRoute env db req).2.projects.length = db.projects.length ∧
      (∀ a b v pid n, (generateRoute env db req).1 = .created a b v pid n → pid = p.id)) := by
  constructor
  · intro env db name cc u hu hlast
    have hu2 : githubUrlTest (u ++ "/") = true := githubUrlTest_append_slash u hu hlast
    have hnorm : normalizeRepoUrl (u ++ "/") = normalizeRepoUrl u := by
      rw [normalizeRepoUrl_append_slash, normalizeRepoUrl_of_no_slash u hlast]
    have hvv : validGenerateRequest { project_name := name, repo_url := u, commit_count := cc } =
        validGenerateRequest { project_name := name, repo_url := u ++ "/", commit_count := cc } := by
      simp only [validGenerateRequest, hu, hu2]
    rw [generateRoute, generateRoute, ← hvv]
    by_cases hv : validGenerateRequest
        { project_name := name, repo_url := u, commit_count := cc } = true
    · rw [if_pos hv, if_pos hv]
      show generateRouteCore env db (strTrim name) (normalizeRepoUrl u) cc =
        generateRouteCore env db (strTrim name) (normalizeRepoUrl (u ++ "/")) cc
      rw [hnorm]
    · rw [if_neg hv, if_neg hv]
  · intro env db req p hfind
    have hupd1 : ∀ f : ProjectDoc → ProjectDoc,
        (updateFirst (fun q => q.repo_url = normalizeRepoUrl req.repo_url) f
          db.projects).length = db.projects.length := fun f => length_updateFirst _ _ _
    rw [generateRoute]
    by_cases hv : validGenerateRequest req = true
    · rw [if_pos hv, generateRouteCore]
      cases hses : env.session with
      | none => exact ⟨rfl, by simp⟩
      | some user =>
        simp only
        by_cases hacc : (checkRepositoryAccess env.repoAccess).canAccess = true
        · simp only [hacc, not_true, Bool.not_true, Bool.false_eq_true, if_false]
          simp only [resolveOrCreateProject, hfind]
          split
          · exact ⟨by simp [length_updateFirst], by simp⟩
          · split
            · exact ⟨by simp [length_updateFirst], by simp⟩
            · split
              · refine ⟨by simp [length_updateFirst], ?_⟩
                intro a b v pid n heq
                simp at heq
              · refine ⟨by simp [length_updateFirst], ?_⟩
                intro a b v pid n heq
                simp only [GenerateOutcome.created.injEq] at heq
                obtain ⟨-, -, -, hpid, -⟩ := heq
                rw [← hpid, preSaveProject_id, backfillGitHub_id, claimOwner_id]
        · have hacc' : (checkRepositoryAccess env.repoAccess).canAccess = false := by
            cases hb : (checkRepositoryAccess env.repoAccess).canAccess
            · rfl
            · exact absurd hb hacc
          simp only [hacc', Bool.not_false, if_pos]
          exact ⟨rfl, by simp⟩
    · rw [if_neg hv]
      exact ⟨rfl, by simp⟩

/-- C6 (witness): the URL-normalization part on a concrete request, and
the uniqueness part on a store already holding the sample project. -/
theorem c6_repo_url_normalization_and_uniqueness_witness :
    generateRoute sampleEnv sampleDB sampleGenReq =
      generateRoute sampleEnv sampleDB { sampleGenReq with
        repo_url := "https://github.com/acme/widgets" ++ "/" } ∧
    (generateRoute sampleEnv sampleDB sampleGenReq).2.projects.length =
      sampleDB.projects.length ∧
    (∀ a b v pid n, (generateRoute sampleEnv sampleDB sampleGenReq).1 =
      .created a b v pid n → pid = sampleProject.id) := by
  obtain ⟨h1, h2⟩ := c6_repo_url_normalization_and_uniqueness
  obtain ⟨h2a, h2b⟩ := h2 sampleEnv sampleDB sampleGenReq sampleProject (by decide)
  exact ⟨h1 sampleEnv sampleDB "Widgets" 3 "https://github.com/acme/widgets"
    (by decide) (by decide), h2a, h2b⟩

/-- C7: `_fetchGitHubRecentCommits` pages through the hosting API until
`count` records are collected or the repository (`all`, most-recent-first)
is exhausted, and returns exactly the first `min count all.length`
records, i.e. the `count`-prefix of the most-recent-first history. -/
theorem c7_pagination_returns_prefix (all : List CommitData) (count : Nat) :
    fetchGitHubRecentCommits true all count = .ok (all.take count) ∧
    (all.take count).length = min count all.length := by
  refine ⟨fetchGitHubRecentCommits_take all count, ?_⟩
  simp

/-- C8: a successful publish refreshes the owning project's `updated_at`
to the publish time and modifies nothing else in the projects collection:
the collection keeps its size, the targeted project differs from its old
value only in `updated_at`, and every other project is untouched. -/
theorem c8_publish_refreshes_only_project_timestamp
    (db : DB) (now : Nat) (s : Option AuthUser) (req : PublishRequest)
    (cid v : String) (t : Nat) (pid : String) (db' : DB)
    (h : publishChangelogRoute db now s req = (.ok cid v t pid, db')) :
    t = now ∧
    db'.projects.length = db.projects.length ∧
    db'.projects.find? (fun p => p.id = pid) =
      (db.projects.find? (fun p => p.id = pid)).map
        (fun p => { p with updated_at := now }) ∧
    (∀ q ∈ db'.projects, q ∈ db.projects ∨
      ∃ p, p ∈ db.projects ∧ p.id = pid ∧ q.id = p.id ∧ q.name = p.name ∧
        q.repo_url = p.repo_url ∧ q.description = p.description ∧
        q.owner_id = p.owner_id ∧ q.github_repo_owner = p.github_repo_owner ∧
        q.github_repo_name = p.github_repo_name ∧ q.created_at = p.created_at ∧
        q.updated_at = now) := by
  simp only [publishChangelogRoute] at h
  split at h
  · simp at h
  · split at h
    · simp at h
    · split at h
      · simp at h
      · rename_i c hfind hnp
        simp only [Prod.mk.injEq, PublishOutcome.ok.injEq] at h
        obtain ⟨⟨hcid, hcv, hnow, hpid⟩, hdb⟩ := h
        subst hdb
        refine ⟨hnow.symm, ?_, ?_, ?_⟩
        · exact length_updateFirst _ _ _
        · rw [← hpid]
          rw [find?_updateFirst_same (fun p => decide (p.id = (applyPublishUpdate now req.summary_final c).project_id))
            (fun p => { p with updated_at := now }) db.projects (by intro x; rfl)]
        · intro q hq
          rcases mem_updateFirst _ _ _ _ hq with hmem | ⟨x, hx, hpx, hqx⟩
          · exact Or.inl hmem
          · right
            refine ⟨x, hx, ?_, ?_⟩
            · rw [← hpid]
              exact of_decide_eq_true hpx
            · subst hqx
              exact ⟨rfl, rfl, rfl, rfl, rfl, rfl, rfl, rfl, rfl⟩

/-- C8 (witness): the frame theorem applied to a concrete successful
publish on the sample store. -/
theorem c8_publish_project_frame_witness :
    (publishChangelogRoute sampleDB 100 none samplePublishReq).2.projects.find?
        (fun p => p.id = "pid-1") =
      (sampleDB.projects.find? (fun p => p.id = "pid-1")).map
        (fun p => { p with updated_at := 100 }) ∧
    (publishChangelogRoute sampleDB 100 none samplePublishReq).2.projects.length =
      sampleDB.projects.length := by
  obtain ⟨-, h2, h3, -⟩ := c8_publish_refreshes_only_project_timestamp sampleDB 100 none
    samplePublishReq sampleChangelogId "2025.01.01-1200" 100 "pid-1"
    (publishChangelogRoute sampleDB 100 none samplePublishReq).2 (by decide)
  exact ⟨h3, h2⟩

/-- C9: `generateSummary` on an empty (or missing) commit list does not
fail: it returns the fixed string without consulting the LLM — the result
is the same for every behaviour of the provider and of the API key. -/
theorem c9_generate_summary_empty_commits (llm : LlmBehavior) (apiKeyPresent : Bool) :
    generateSummary [] llm apiKeyPresent =
      .ok "No commits provided for changelog generation." := rfl

/-- C10 (counterexample): an upstream failure of the repository-access
check ("network unreachable") is converted to `canAccess = false`, but
the generate request then fails with the generic 500 response, not the
403 access-denied outcome the claim names: the thrown message
`Repository access check failed: …` matches none of the route's
specific substring tests. -/
theorem c10_access_error_yields_500_cex :
    (checkRepositoryAccess (.error "network unreachable")).canAccess = false ∧
    (generateRoute { sampleEnv with repoAccess := .error "network unreachable" }
        sampleDB sampleGenReq).1 = .httpError 500 ∧
    (500 : Nat) ≠ 403 := by
  refine ⟨rfl, rfl, by decide⟩

/-- C10 (amended): every error thrown while verifying repository access
is converted by `checkRepositoryAccess` into `canAccess = false` with the
message recorded in `error`; the generate request then fails — the store
is unchanged and no changelog is created — but through the route's
message-driven error mapping rather than necessarily the 403 branch. -/
theorem c10_access_error_converts_to_denied (m : String) (env : GenEnv) (db : DB)
    (req : GenerateRequest) (user : AuthUser)
    (hses : env.session = some user)
    (herr : env.repoAccess = .error m) :
    (checkRepositoryAccess env.repoAccess).canAccess = false ∧
    (checkRepositoryAccess env.repoAccess).error =
      some ("Repository access check failed: " ++ m) ∧
    (generateRoute env db req).2 = db ∧
    (∀ a b c d e, (generateRoute env db req).1 ≠ .created a b c d e) := by
  refine ⟨by rw [herr]; rfl, by rw [herr]; rfl, ?_, ?_⟩
  · rw [generateRoute]
    split
    · rw [generateRouteCore, hses]
      rw [herr]
      simp [checkRepositoryAccess]
    · rfl
  · intro a b c d e
    rw [generateRoute]
    split
    · rw [generateRouteCore, hses]
      rw [herr]
      simp [checkRepositoryAccess]
    · simp

/-- C10 (witness): the amended theorem at a concrete failing check. -/
theorem c10_access_error_converts_to_denied_witness :
    (checkRepositoryAccess
        ({ sampleEnv with repoAccess := .error "boom" } : GenEnv).repoAccess).canAccess = false ∧
    (generateRoute { sampleEnv with repoAccess := .error "boom" } sampleDB sampleGenReq).2 =
      sampleDB := by
  obtain ⟨h1, h2, h3, h4⟩ := c10_access_error_converts_to_denied "boom"
    { sampleEnv with repoAccess := .error "boom" } sampleDB sampleGenReq sampleCaller rfl rfl
  exact ⟨h1, h3⟩
